import Mathlib

/-!
Verification development for the newcvtoai server (src/server.ts).

The server is an Express application over a dual-backend persistence layer
(better-sqlite3 or node-postgres, chosen at boot from DATABASE_URL).  This
file gives a shallow embedding of the parts of `server.ts` the claims are
about:

* a model of JSON values together with the serialization performed by the
  ECMAScript builtins `JSON.stringify` / `JSON.parse` (external builtins the
  handlers call; numbers are modelled as integers, strings escape the five
  common escapes);
* the positional-placeholder translation of the db abstraction (lines
  34-66: `sql.replace(/\?/g, () => "$" + count++)`), modelled on `List Char`;
* the `run` insert-id normalization (`RETURNING id` on Postgres, native
  `lastInsertRowid` on SQLite);
* the two tables of `initDb` (users, cv_history) as a state record, and the
  request handlers for register, login, me, profile update, history
  save / list / delete, each modelled as a state-passing function.

SQL NULL is modelled by `Option`; a request-body field that is absent or
JSON null reaches the database as NULL and is modelled by `none`.
-/

/-! ## JSON values and the stringify / parse builtins -/

/-- A JSON value as handled by the server: the analysis payload saved by
POST /api/history/save is `JSON.stringify`-ed into the `analysis_json`
column and `JSON.parse`-d back by GET /api/history.  Numbers are modelled
as integers. -/
inductive Json where
  | null : Json
  | bool (b : Bool) : Json
  | num (n : Int) : Json
  | str (s : String) : Json
  | arr (elems : List Json) : Json
  | obj (members : List (String × Json)) : Json
deriving Repr

/-- The character U+007B, written via its code point. -/
def lbrace : Char := Char.ofNat 123

/-- The character U+007D, written via its code point. -/
def rbrace : Char := Char.ofNat 125

/-- Escaping of one character inside a JSON string literal, as
`JSON.stringify` performs it for the common cases (quote, backslash,
newline, tab, carriage return); other characters pass through. -/
def escChar (c : Char) : List Char :=
  if c = '"' then ['\\', '"']
  else if c = '\\' then ['\\', '\\']
  else if c = '\n' then ['\\', 'n']
  else if c = '\t' then ['\\', 't']
  else if c = '\r' then ['\\', 'r']
  else [c]

/-- Escape a whole string body. -/
def escStr (cs : List Char) : List Char := cs.flatMap escChar

/-- The decimal digit character for `d` (meaningful for `d < 10`). -/
def digitChar (d : Nat) : Char := Char.ofNat (48 + d)

/-- Decimal printing of a natural number below the fuel bound, most
significant digit first (structural recursion on the fuel so that it
computes by reduction). -/
def natCharsGo : Nat → Nat → List Char
  | 0, _ => []
  | fuel + 1, n =>
    if n < 10 then [digitChar n]
    else natCharsGo fuel (n / 10) ++ [digitChar (n % 10)]

/-- Decimal printing of a natural number, most significant digit first,
as ECMAScript prints integral numbers. -/
def natChars (n : Nat) : List Char := natCharsGo (n + 1) n

/-- Decimal printing of an integer. -/
def intChars (n : Int) : List Char :=
  if n < 0 then '-' :: natChars n.natAbs else natChars n.toNat

mutual
/-- The character sequence `JSON.stringify` produces for a value
(canonical form: no whitespace). -/
def jsonChars : Json → List Char
  | .null => "null".data
  | .bool true => "true".data
  | .bool false => "false".data
  | .num n => intChars n
  | .str s => '"' :: (escStr s.data ++ ['"'])
  | .arr es => '[' :: (arrChars es ++ [']'])
  | .obj ms => lbrace :: (objChars ms ++ [rbrace])

/-- Comma-separated array elements. -/
def arrChars : List Json → List Char
  | [] => []
  | [x] => jsonChars x
  | x :: y :: xs => jsonChars x ++ ',' :: arrChars (y :: xs)

/-- Comma-separated object members, each `"key":value`. -/
def objChars : List (String × Json) → List Char
  | [] => []
  | [(k, v)] => '"' :: (escStr k.data ++ ['"', ':'] ++ jsonChars v)
  | (k, v) :: m :: ms =>
      ('"' :: (escStr k.data ++ ['"', ':'] ++ jsonChars v)) ++ ',' :: objChars (m :: ms)
end

mutual
/-- Nesting measure of a value: a fuel bound for the parser. -/
def jsize : Json → Nat
  | .null => 1
  | .bool _ => 1
  | .num _ => 1
  | .str _ => 1
  | .arr es => 1 + jsizeL es
  | .obj ms => 1 + jsizeM ms

/-- Fuel bound for the element list of an array. -/
def jsizeL : List Json → Nat
  | [] => 0
  | x :: xs => 1 + max (jsize x) (jsizeL xs)

/-- Fuel bound for the member list of an object. -/
def jsizeM : List (String × Json) → Nat
  | [] => 0
  | (_, v) :: ms => 1 + max (jsize v) (jsizeM ms)
end

/-- Whether `c` is a decimal digit character. -/
def isDigitChar (c : Char) : Bool := 48 ≤ c.toNat && c.toNat ≤ 57

/-- Numeric value of a digit character. -/
def digitVal (c : Char) : Nat := c.toNat - 48

/-- Split the longest digit prefix off the input. -/
def takeDigits : List Char → (List Char × List Char)
  | [] => ([], [])
  | c :: rest =>
    if isDigitChar c then
      let p := takeDigits rest
      (c :: p.1, p.2)
    else ([], c :: rest)

/-- Read a digit list, most significant first, as a natural number. -/
def natFromChars (ds : List Char) : Nat := ds.foldl (fun a c => 10 * a + digitVal c) 0

/-- Parse a decimal natural number off the front of the input. -/
def parseNat (input : List Char) : Option (Nat × List Char) :=
  let p := takeDigits input
  if p.1.isEmpty then none else some (natFromChars p.1, p.2)

/-- Inverse of `escChar` on the character after a backslash: the escapes
`JSON.parse` accepts (restricted to the ones `escChar` emits). -/
def unescChar (c : Char) : Option Char :=
  if c = '"' then some '"'
  else if c = '\\' then some '\\'
  else if c = 'n' then some '\n'
  else if c = 't' then some '\t'
  else if c = 'r' then some '\r'
  else none

/-- Parse a JSON string body up to and including the closing quote,
returning the unescaped characters and the remaining input. -/
def parseStrChars : List Char → Option (List Char × List Char)
  | [] => none
  | c :: rest =>
    if c = '"' then some ([], rest)
    else if c = '\\' then
      match rest with
      | [] => none
      | e :: rest2 =>
        match unescChar e, parseStrChars rest2 with
        | some u, some p => some (u :: p.1, p.2)
        | _, _ => none
    else
      match parseStrChars rest with
      | some p => some (c :: p.1, p.2)
      | none => none
termination_by l => l.length

/-- Recursive-descent parser for JSON, modelling `JSON.parse` restricted
to the whitespace-free canonical form `JSON.stringify` emits.  `fuel`
bounds the nesting depth; the three components parse one value, a
non-empty bracketed element list, and a non-empty braced member list.
Defined as one structural recursion on the fuel so that it computes. -/
def parseFns : Nat →
    (List Char → Option (Json × List Char)) ×
    (List Char → Option (List Json × List Char)) ×
    (List Char → Option (List (String × Json) × List Char))
  | 0 => (fun _ => none, fun _ => none, fun _ => none)
  | fuel + 1 =>
    let pv := (parseFns fuel).1
    let pe := (parseFns fuel).2.1
    let pm := (parseFns fuel).2.2
    (fun input =>
      match input with
      | [] => none
      | c :: rest =>
        if c = 'n' then
          match rest with
          | 'u' :: 'l' :: 'l' :: r => some (.null, r)
          | _ => none
        else if c = 't' then
          match rest with
          | 'r' :: 'u' :: 'e' :: r => some (.bool true, r)
          | _ => none
        else if c = 'f' then
          match rest with
          | 'a' :: 'l' :: 's' :: 'e' :: r => some (.bool false, r)
          | _ => none
        else if c = '"' then
          match parseStrChars rest with
          | some p => some (.str (String.mk p.1), p.2)
          | none => none
        else if c = '[' then
          if rest.head? = some ']' then some (.arr [], rest.tail)
          else
            match pe rest with
            | some p => some (.arr p.1, p.2)
            | none => none
        else if c = lbrace then
          if rest.head? = some rbrace then some (.obj [], rest.tail)
          else
            match pm rest with
            | some p => some (.obj p.1, p.2)
            | none => none
        else if c = '-' then
          match parseNat rest with
          | some p => some (.num (-(p.1 : Int)), p.2)
          | none => none
        else if isDigitChar c then
          match parseNat (c :: rest) with
          | some p => some (.num (p.1 : Int), p.2)
          | none => none
        else none,
     fun input =>
      match pv input with
      | some (v, r) =>
        match r with
        | ',' :: r2 =>
          match pe r2 with
          | some p => some (v :: p.1, p.2)
          | none => none
        | ']' :: r2 => some ([v], r2)
        | _ => none
      | none => none,
     fun input =>
      match input with
      | '"' :: rest =>
        match parseStrChars rest with
        | some kp =>
          match kp.2 with
          | ':' :: r2 =>
            match pv r2 with
            | some (v, r3) =>
              if r3.head? = some ',' then
                match pm r3.tail with
                | some p => some ((String.mk kp.1, v) :: p.1, p.2)
                | none => none
              else if r3.head? = some rbrace then some ([(String.mk kp.1, v)], r3.tail)
              else none
            | none => none
          | _ => none
        | none => none
      | _ => none)

/-- Parse one JSON value. -/
def parseVal (fuel : Nat) (input : List Char) : Option (Json × List Char) :=
  (parseFns fuel).1 input

/-- Parse a non-empty element list up to and including the closing `]`. -/
def parseElems (fuel : Nat) (input : List Char) : Option (List Json × List Char) :=
  (parseFns fuel).2.1 input

/-- Parse a non-empty member list up to and including the closing brace. -/
def parseMembers (fuel : Nat) (input : List Char) : Option (List (String × Json) × List Char) :=
  (parseFns fuel).2.2 input

/-- The string `JSON.stringify` produces for a value. -/
def jsonStringify (j : Json) : String := String.mk (jsonChars j)

/-- `JSON.parse`, total on the canonical forms produced by
`jsonStringify`; `none` models the builtin throwing. -/
def jsonParse (s : String) : Option Json :=
  match parseVal (s.data.length + 1) s.data with
  | some (v, []) => some v
  | _ => none

/-- Bool-level test that the input does not begin with a digit (a decimal
number parse cannot extend into such a remainder). -/
def headNotDigit : List Char → Bool
  | [] => true
  | c :: _ => !isDigitChar c

/-! ## The persistence adapter (src/server.ts lines 32-75)

The query interface `db.get / db.all / db.run` translates the `?`
placeholders of the call sites to `$1..$N` for the Postgres backend with
`let count = 1; sql.replace(/\?/g, () => "$" + count++)` and passes the
text through untouched for SQLite.  The JS string functions involved
(`trim`, `toUpperCase`, `startsWith`) are external builtins and are
modelled here on `List Char`. -/

/-- One step of the global regex replace: every `?` in the source text,
scanned left to right, is rewritten to `$k` with a running counter. -/
def pgTranslateChars : Nat → List Char → List Char
  | _, [] => []
  | k, c :: rest =>
    if c = '?' then ('$' :: natChars k) ++ pgTranslateChars (k + 1) rest
    else c :: pgTranslateChars k rest

/-- Join segments with a `?` between consecutive segments: a query text
with `segs.length - 1` positional placeholders. -/
def qmarkJoin : List (List Char) → List Char
  | [] => []
  | [s] => s
  | s :: t :: rest => s ++ '?' :: qmarkJoin (t :: rest)

/-- Join segments with `$k`, `$(k+1)`, ... between consecutive
segments: the intended Postgres form of `qmarkJoin`. -/
def dollarJoin : Nat → List (List Char) → List Char
  | _, [] => []
  | _, [s] => s
  | k, s :: t :: rest => s ++ ('$' :: natChars k) ++ dollarJoin (k + 1) (t :: rest)

/-- Positional binding of the SQLite backend (better-sqlite3): the i-th
`?` (0-based) receives the i-th element of the parameter list. -/
def sqliteBindParam (params : List α) (i : Nat) : Option α := params.get? i

/-- Positional binding of the Postgres backend: `$k` receives the k-th
element (1-based) of the parameter list. -/
def pgBindParam (params : List α) (k : Nat) : Option α := params.get? (k - 1)

/-- Model of the JS `String.prototype.toUpperCase` on one ASCII character. -/
def upperChar (c : Char) : Char :=
  if 97 ≤ c.toNat && c.toNat ≤ 122 then Char.ofNat (c.toNat - 32) else c

/-- Model of `toUpperCase`. -/
def toUpperChars (l : List Char) : List Char := l.map upperChar

/-- Whitespace as stripped by the JS `trim` builtin (common cases). -/
def jsSpace (c : Char) : Bool := c = ' ' || c = '\n' || c = '\t' || c = '\r'

/-- Model of the JS `trim` builtin. -/
def trimChars (l : List Char) : List Char :=
  ((l.dropWhile jsSpace).reverse.dropWhile jsSpace).reverse

/-- Model of the JS `startsWith` builtin. -/
def startsWithChars (p l : List Char) : Bool := l.take p.length == p

/-- Result shape of `db.run`: both backends are normalized to an object
carrying `lastInsertRowid` (absent on the Postgres path when the
statement is not an insert, hence the `Option`). -/
structure RunResult where
  lastInsertRowid : Option Nat
deriving Repr, DecidableEq

/-- A relational table with an auto-generated integer identity column:
`nextId` is the next AUTOINCREMENT / SERIAL value, `rows` pairs each
assigned id with the row payload. -/
structure SqlTable (α : Type) where
  nextId : Nat
  rows : List (Nat × α)
deriving Repr, DecidableEq

/-- The SQLite branch of `db.run` on an insert statement:
better-sqlite3 executes the insert and natively reports
`info.lastInsertRowid`, the id assigned to the new row. -/
def sqliteRunInsert (t : SqlTable α) (v : α) : SqlTable α × RunResult :=
  (⟨t.nextId + 1, t.rows ++ [(t.nextId, v)]⟩, ⟨some t.nextId⟩)

/-- The Postgres branch of `db.run` (server.ts lines 54-62): translate
the placeholders, append " RETURNING id" when the trimmed upper-cased
text starts with "INSERT", execute, and read `res.rows[0]?.id`.  The
engine returns the new row's id exactly when the RETURNING clause was
appended. -/
def pgRunInsert (sqlText : List Char) (t : SqlTable α) (v : α) : SqlTable α × RunResult :=
  let pgSql := pgTranslateChars 1 sqlText
  let isIns := startsWithChars "INSERT".data (toUpperChars (trimChars pgSql))
  let t' : SqlTable α := ⟨t.nextId + 1, t.rows ++ [(t.nextId, v)]⟩
  let resultRows : List Nat := if isIns then [t.nextId] else []
  (t', ⟨resultRows.get? 0⟩)

/-- The SQLite branch of `db.get`: `.get()` of better-sqlite3 returns
the first row the query produced, or undefined when it produced none;
the rows a query produces stand for the query-and-parameters pair. -/
def dbGetSqlite (matchingRows : List α) : Option α := matchingRows.head?

/-- Result object of a node-postgres query. -/
structure PgQueryResult (α : Type) where
  rows : List α
deriving Repr, DecidableEq

/-- The Postgres branch of `db.get`: `res.rows[0]`, which is undefined
(here `none`) when no row matched. -/
def dbGetPg (res : PgQueryResult α) : Option α := res.rows.get? 0

/-- The SQLite branch of `db.all`: `.all()` returns the full (possibly
empty) row list. -/
def dbAllSqlite (matchingRows : List α) : List α := matchingRows

/-- The Postgres branch of `db.all`: `res.rows`. -/
def dbAllPg (res : PgQueryResult α) : List α := res.rows

/-! ## Domain schema and handlers (src/server.ts lines 77-250) -/

/-- A row of the users table created by `initDb`: columns id, email,
password, name, avatar, bio, theme, created_at.  TEXT columns are
nullable (`Option`); `theme` has DEFAULT 'light'. -/
structure UserRow where
  id : Nat
  email : Option String
  password : Option String
  name : Option String
  avatar : Option String
  bio : Option String
  theme : Option String
  created_at : Nat
deriving Repr, DecidableEq

/-- A row of the cv_history table: id, user_id (the owning account),
cv_text, job_description, analysis_json, created_at. -/
structure HistRow where
  id : Nat
  user_id : Nat
  cv_text : String
  job_description : String
  analysis_json : String
  created_at : Nat
deriving Repr, DecidableEq

/-- The persistent state: the two tables with their identity counters,
plus the storage clock assigning CURRENT_TIMESTAMP defaults. -/
structure Db where
  users : List UserRow
  nextUserId : Nat
  hist : List HistRow
  nextHistId : Nat
  now : Nat
deriving Repr, DecidableEq

/-- A JSON-serializable field value of a response body. -/
inductive JsValue where
  | jnull : JsValue
  | jnum (n : Nat) : JsValue
  | jbool (b : Bool) : JsValue
  | jstr (s : String) : JsValue
deriving Repr, DecidableEq

/-- A nullable TEXT column as it appears in a JSON response. -/
def jsOfOptStr : Option String → JsValue
  | none => .jnull
  | some s => .jstr s

/-- An HTTP response of the API: 200 with a JSON body, or the two error
statuses the handlers use, carrying the error message. -/
inductive HttpResp (α : Type) where
  | status200 (body : α) : HttpResp α
  | status400 (errorMsg : String) : HttpResp α
  | status401 (errorMsg : String) : HttpResp α
deriving Repr, DecidableEq

/-- The body `res.json({ success: true })` of the mutating handlers. -/
def successBody : List (String × JsValue) := [("success", .jbool true)]

/-- Model of bcryptjs hashing (external library): an injective one-way
tag of the password; hashing an undefined password rejects, which the
caller models by matching on the `Option` before calling this. -/
def bcryptHash (pw : String) : String := "bcrypt10$".append pw

/-- Model of `bcrypt.compare(pw, hash)`: true exactly when the hash was
produced from this password. -/
def bcryptCompare (pw : String) (hash : Option String) : Bool :=
  hash == some (bcryptHash pw)

/-- Whether an INSERT of this email into users violates the
`email TEXT UNIQUE` constraint: only a non-NULL duplicate does (SQL
UNIQUE ignores NULLs on both backends). -/
def emailTaken (db : Db) (email : Option String) : Bool :=
  match email with
  | none => false
  | some e => db.users.any (fun u => u.email == some e)

/-- Response body of POST /api/auth/register: the handler re-reads the
new row with `SELECT id, email, name FROM users WHERE id = ?`. -/
def registerBody (u : UserRow) : List (String × JsValue) :=
  [("id", .jnum u.id), ("email", jsOfOptStr u.email), ("name", jsOfOptStr u.name)]

/-- POST /api/auth/register (server.ts lines 163-175): hash the
password (rejects when undefined), insert (email, password, name) into
users, and answer with the re-selected id / email / name row.  Any
thrown error is caught and mapped to status 400 with a fixed message,
leaving the store unchanged. -/
def register (db : Db) (email password nm : Option String) :
    Db × HttpResp (List (String × JsValue)) :=
  match password with
  | none => (db, .status400 "User already exists or invalid data")
  | some pw =>
    if emailTaken db email then
      (db, .status400 "User already exists or invalid data")
    else
      let newRow : UserRow :=
        { id := db.nextUserId, email := email, password := some (bcryptHash pw),
          name := nm, avatar := none, bio := none, theme := some "light",
          created_at := db.now }
      ({ db with users := db.users ++ [newRow], nextUserId := db.nextUserId + 1 },
       .status200 (registerBody newRow))

/-- Response body of POST /api/auth/login: `SELECT *` row with the
password field removed by rest-destructuring, remaining columns in
table order. -/
def loginBody (u : UserRow) : List (String × JsValue) :=
  [("id", .jnum u.id), ("email", jsOfOptStr u.email), ("name", jsOfOptStr u.name),
   ("avatar", jsOfOptStr u.avatar), ("bio", jsOfOptStr u.bio),
   ("theme", jsOfOptStr u.theme), ("created_at", .jnum u.created_at)]

/-- POST /api/auth/login (lines 177-187): look the user up by email
(`WHERE email = ?`, which matches nothing for a NULL email), compare the
password against the stored hash, and answer the password-stripped row
or 401. -/
def login (db : Db) (email : Option String) (password : String) :
    HttpResp (List (String × JsValue)) :=
  match (match email with
         | none => (none : Option UserRow)
         | some e => db.users.find? (fun u => u.email == some e)) with
  | some u =>
      if bcryptCompare password u.password then .status200 (loginBody u)
      else .status401 "Invalid credentials"
  | none => .status401 "Invalid credentials"

/-- Response body of GET /api/auth/me: the
`SELECT id, email, name, avatar, bio, theme` row. -/
def meBody (u : UserRow) : List (String × JsValue) :=
  [("id", .jnum u.id), ("email", jsOfOptStr u.email), ("name", jsOfOptStr u.name),
   ("avatar", jsOfOptStr u.avatar), ("bio", jsOfOptStr u.bio),
   ("theme", jsOfOptStr u.theme)]

/-- GET /api/auth/me (lines 189-197): 401 without a session; otherwise
the selected row of the session's user.  When the id matches no row the
handler sends `res.json(undefined)`, an empty body, modelled as the
empty field list. -/
def currentAccount (db : Db) (session : Option Nat) : HttpResp (List (String × JsValue)) :=
  match session with
  | none => .status401 "Not authenticated"
  | some uid =>
    match db.users.find? (fun u => u.id == uid) with
    | some u => .status200 (meBody u)
    | none => .status200 []

/-- The JS expression `theme || 'light'` of the profile-update handler:
an absent, null or empty-string theme is falsy and yields 'light'. -/
def themeOrLight : Option String → String
  | none => "light"
  | some s => if s = "" then "light" else s

/-- POST /api/profile/update (lines 206-213): 401 without a session;
otherwise one statement
`UPDATE users SET name = ?, bio = ?, theme = ? WHERE id = ?` with
parameters `[name, bio, theme || 'light', userId]`, then success. -/
def updateProfile (db : Db) (session : Option Nat) (nm bio theme : Option String) :
    Db × HttpResp (List (String × JsValue)) :=
  match session with
  | none => (db, .status401 "Unauthorized")
  | some uid =>
    ({ db with
        users := db.users.map (fun (u : UserRow) =>
          if u.id == uid then
            { u with name := nm, bio := bio, theme := some (themeOrLight theme) }
          else u) },
     .status200 successBody)

/-- POST /api/history/save (lines 225-233): 401 without a session;
otherwise insert
`(user_id, cv_text, job_description, analysis_json)` with the analysis
passed through `JSON.stringify`, then success. -/
def appendHistory (db : Db) (session : Option Nat) (cvText jobDescription : String)
    (analysis : Json) : Db × HttpResp (List (String × JsValue)) :=
  match session with
  | none => (db, .status401 "Unauthorized")
  | some uid =>
    let row : HistRow :=
      { id := db.nextHistId, user_id := uid, cv_text := cvText,
        job_description := jobDescription,
        analysis_json := jsonStringify analysis, created_at := db.now }
    ({ db with hist := db.hist ++ [row], nextHistId := db.nextHistId + 1 },
     .status200 successBody)

/-- Descending creation-time order, the `ORDER BY created_at DESC` of
the history query. -/
def createdDesc (a b : HistRow) : Prop := b.created_at ≤ a.created_at

instance : DecidableRel createdDesc := fun a b => Nat.decLe b.created_at a.created_at

instance : IsTotal HistRow createdDesc := ⟨fun a b => Nat.le_total b.created_at a.created_at⟩

instance : IsTrans HistRow createdDesc := ⟨fun _ _ _ h1 h2 => Nat.le_trans h2 h1⟩

/-- The ordered sequence `ORDER BY created_at DESC` yields. -/
def sortNewestFirst (l : List HistRow) : List HistRow := List.insertionSort createdDesc l

/-- A history record as GET /api/history returns it: the stored row
spread together with `analysis: JSON.parse(h.analysis_json)` (where
`none` models the builtin throwing on unparseable stored text). -/
structure HistOut where
  id : Nat
  user_id : Nat
  cv_text : String
  job_description : String
  analysis_json : String
  created_at : Nat
  analysis : Option Json
deriving Repr

/-- The spread `{ ...h, analysis: JSON.parse(h.analysis_json) }`. -/
def histOutOfRow (h : HistRow) : HistOut :=
  { id := h.id, user_id := h.user_id, cv_text := h.cv_text,
    job_description := h.job_description, analysis_json := h.analysis_json,
    created_at := h.created_at, analysis := jsonParse h.analysis_json }

/-- GET /api/history (lines 235-241): 401 without a session; otherwise
`SELECT * FROM cv_history WHERE user_id = ? ORDER BY created_at DESC`
mapped through the analysis-parsing spread. -/
def listHistory (db : Db) (session : Option Nat) : HttpResp (List HistOut) :=
  match session with
  | none => .status401 "Unauthorized"
  | some uid =>
    .status200 ((sortNewestFirst (db.hist.filter (fun h => h.user_id == uid))).map histOutOfRow)

/-- DELETE /api/history/:id (lines 243-249): 401 without a session;
otherwise one statement
`DELETE FROM cv_history WHERE id = ? AND user_id = ?` followed by an
unconditional success response. -/
def deleteHistory (db : Db) (session : Option Nat) (recId : Nat) :
    Db × HttpResp (List (String × JsValue)) :=
  match session with
  | none => (db, .status401 "Unauthorized")
  | some uid =>
    ({ db with hist := db.hist.filter (fun h => !(h.id == recId && h.user_id == uid)) },
     .status200 successBody)

/-! ## Round-trip of the JSON builtins -/

theorem parseVal_succ_cons (fuel : Nat) (c : Char) (rest : List Char) :
    parseVal (fuel + 1) (c :: rest) =
    (if c = 'n' then
      match rest with
      | 'u' :: 'l' :: 'l' :: r => some (.null, r)
      | _ => none
    else if c = 't' then
      match rest with
      | 'r' :: 'u' :: 'e' :: r => some (.bool true, r)
      | _ => none
    else if c = 'f' then
      match rest with
      | 'a' :: 'l' :: 's' :: 'e' :: r => some (.bool false, r)
      | _ => none
    else if c = '"' then
      match parseStrChars rest with
      | some p => some (.str (String.mk p.1), p.2)
      | none => none
    else if c = '[' then
      if rest.head? = some ']' then some (.arr [], rest.tail)
      else
        match parseElems fuel rest with
        | some p => some (.arr p.1, p.2)
        | none => none
    else if c = lbrace then
      if rest.head? = some rbrace then some (.obj [], rest.tail)
      else
        match parseMembers fuel rest with
        | some p => some (.obj p.1, p.2)
        | none => none
    else if c = '-' then
      match parseNat rest with
      | some p => some (.num (-(p.1 : Int)), p.2)
      | none => none
    else if isDigitChar c then
      match parseNat (c :: rest) with
      | some p => some (.num (p.1 : Int), p.2)
      | none => none
    else none) := rfl

theorem parseElems_succ (fuel : Nat) (input : List Char) :
    parseElems (fuel + 1) input =
    (match parseVal fuel input with
    | some (v, r) =>
      match r with
      | ',' :: r2 =>
        match parseElems fuel r2 with
        | some p => some (v :: p.1, p.2)
        | none => none
      | ']' :: r2 => some ([v], r2)
      | _ => none
    | none => none) := rfl

theorem parseMembers_succ (fuel : Nat) (input : List Char) :
    parseMembers (fuel + 1) input =
    (match input with
    | '"' :: rest =>
      match parseStrChars rest with
      | some kp =>
        match kp.2 with
        | ':' :: r2 =>
          match parseVal fuel r2 with
          | some (v, r3) =>
            if r3.head? = some ',' then
              match parseMembers fuel r3.tail with
              | some p => some ((String.mk kp.1, v) :: p.1, p.2)
              | none => none
            else if r3.head? = some rbrace then some ([(String.mk kp.1, v)], r3.tail)
            else none
          | none => none
        | _ => none
      | none => none
    | _ => none) := rfl

theorem string_mk_data (s : String) : String.mk s.data = s := by cases s; rfl

theorem digitChar_facts : ∀ d, d < 10 →
    isDigitChar (digitChar d) = true ∧ digitVal (digitChar d) = d := by decide

theorem isDigitChar_bounds (c : Char) (h : isDigitChar c = true) :
    48 ≤ c.toNat ∧ c.toNat ≤ 57 := by
  simpa [isDigitChar] using h

theorem char_of_digit_ne (c : Char) (h : isDigitChar c = true) :
    c ≠ 'n' ∧ c ≠ 't' ∧ c ≠ 'f' ∧ c ≠ '"' ∧ c ≠ '[' ∧ c ≠ lbrace ∧ c ≠ '-' := by
  have hb := isDigitChar_bounds c h
  refine ⟨?_, ?_, ?_, ?_, ?_, ?_, ?_⟩ <;>
    (intro e; subst e; exact absurd hb (by decide))

theorem natCharsGo_digits : ∀ (fuel n : Nat), n < fuel →
    ∀ c ∈ natCharsGo fuel n, isDigitChar c = true := by
  intro fuel
  induction fuel with
  | zero => intro n h; omega
  | succ fuel ih =>
    intro n h c hc
    by_cases h10 : n < 10
    · simp only [natCharsGo, if_pos h10, List.mem_singleton] at hc
      subst hc
      exact (digitChar_facts n h10).1
    · simp only [natCharsGo, if_neg h10] at hc
      rcases List.mem_append.mp hc with h1 | h2
      · exact ih (n / 10) (by omega) c h1
      · simp only [List.mem_singleton] at h2
        subst h2
        exact (digitChar_facts _ (Nat.mod_lt _ (by omega))).1

theorem natChars_digits (n : Nat) : ∀ c ∈ natChars n, isDigitChar c = true :=
  natCharsGo_digits (n + 1) n (by omega)

theorem natCharsGo_ne_nil : ∀ (fuel n : Nat), n < fuel → natCharsGo fuel n ≠ [] := by
  intro fuel
  induction fuel with
  | zero => intro n h; omega
  | succ fuel ih =>
    intro n h
    by_cases h10 : n < 10 <;> simp [natCharsGo, h10]

theorem natChars_ne_nil (n : Nat) : natChars n ≠ [] :=
  natCharsGo_ne_nil (n + 1) n (by omega)

theorem natFromChars_append_one (xs : List Char) (c : Char) :
    natFromChars (xs ++ [c]) = 10 * natFromChars xs + digitVal c := by
  simp [natFromChars, List.foldl_append]

theorem natFromChars_natCharsGo : ∀ (fuel n : Nat), n < fuel →
    natFromChars (natCharsGo fuel n) = n := by
  intro fuel
  induction fuel with
  | zero => intro n h; omega
  | succ fuel ih =>
    intro n h
    by_cases h10 : n < 10
    · simp [natCharsGo, h10, natFromChars, (digitChar_facts n h10).2]
    · simp only [natCharsGo, if_neg h10, natFromChars_append_one]
      rw [ih (n / 10) (by omega),
        (digitChar_facts _ (Nat.mod_lt _ (by omega))).2]
      omega

theorem natFromChars_natChars (n : Nat) : natFromChars (natChars n) = n :=
  natFromChars_natCharsGo (n + 1) n (by omega)

theorem takeDigits_append (ds rest : List Char)
    (hds : ∀ c ∈ ds, isDigitChar c = true) (hr : headNotDigit rest = true) :
    takeDigits (ds ++ rest) = (ds, rest) := by
  induction ds with
  | nil =>
    simp only [List.nil_append]
    cases rest with
    | nil => rfl
    | cons c r =>
      simp only [headNotDigit, Bool.not_eq_true'] at hr
      simp [takeDigits, hr]
  | cons c ds ih =>
    have hc := hds c (by simp)
    have ih' := ih (fun x hx => hds x (by simp [hx]))
    simp [takeDigits, hc, List.append_eq, ih']

theorem parseNat_natChars (n : Nat) (rest : List Char) (hr : headNotDigit rest = true) :
    parseNat (natChars n ++ rest) = some (n, rest) := by
  unfold parseNat
  rw [takeDigits_append _ _ (natChars_digits n) hr]
  have h1 : (natChars n).isEmpty = false := by
    obtain ⟨c, t, hct⟩ := List.exists_cons_of_ne_nil (natChars_ne_nil n)
    rw [hct]; rfl
  simp [h1, natFromChars_natChars]

theorem parseStr_escStr (cs : List Char) (rest : List Char) :
    parseStrChars (escStr cs ++ '"' :: rest) = some (cs, rest) := by
  induction cs with
  | nil =>
    rw [show escStr [] = [] from rfl, List.nil_append, parseStrChars.eq_def]
    simp
  | cons c cs ih =>
    have hsplit : escStr (c :: cs) = escChar c ++ escStr cs := by
      simp [escStr]
    rw [hsplit, List.append_assoc]
    by_cases h1 : c = '"'
    · subst h1
      rw [show escChar '"' = ['\\', '"'] from rfl, List.cons_append, List.cons_append,
        parseStrChars.eq_def]
      simp [unescChar, ih]
    · by_cases h2 : c = '\\'
      · subst h2
        rw [show escChar '\\' = ['\\', '\\'] from rfl, List.cons_append, List.cons_append,
          parseStrChars.eq_def]
        simp [unescChar, ih]
      · by_cases h3 : c = '\n'
        · subst h3
          rw [show escChar '\n' = ['\\', 'n'] from rfl, List.cons_append, List.cons_append,
            parseStrChars.eq_def]
          simp [unescChar, ih]
        · by_cases h4 : c = '\t'
          · subst h4
            rw [show escChar '\t' = ['\\', 't'] from rfl, List.cons_append, List.cons_append,
              parseStrChars.eq_def]
            simp [unescChar, ih]
          · by_cases h5 : c = '\r'
            · subst h5
              rw [show escChar '\r' = ['\\', 'r'] from rfl, List.cons_append, List.cons_append,
                parseStrChars.eq_def]
              simp [unescChar, ih]
            · have hesc : escChar c = [c] := by simp [escChar, h1, h2, h3, h4, h5]
              rw [hesc, List.cons_append, List.nil_append, parseStrChars.eq_def]
              simp [h1, h2, ih]

theorem jsize_pos (v : Json) : 1 ≤ jsize v := by
  cases v <;> simp [jsize]

theorem jsizeL_bound (es : List Json)
    (h : ∀ x ∈ es, jsize x ≤ (jsonChars x).length + 1) :
    jsizeL es ≤ (arrChars es).length + 2 := by
  induction es with
  | nil => simp [jsizeL]
  | cons x xs ih =>
    cases xs with
    | nil =>
      have h1 := h x (by simp)
      simp only [jsizeL, arrChars]
      omega
    | cons y ys =>
      have h1 := h x (by simp)
      have h2 : jsizeL (y :: ys) ≤ (arrChars (y :: ys)).length + 2 :=
        ih (fun z hz => h z (by simp [hz]))
      have e1 : jsizeL (x :: y :: ys) = 1 + max (jsize x) (jsizeL (y :: ys)) := by
        rw [jsizeL]
      have e2 : arrChars (x :: y :: ys) = jsonChars x ++ ',' :: arrChars (y :: ys) := by
        rw [arrChars]
      rw [e1, e2]
      simp only [List.length_append, List.length_cons]
      have h3 : max (jsize x) (jsizeL (y :: ys)) ≤
          (jsonChars x).length + (arrChars (y :: ys)).length + 2 :=
        Nat.max_le.mpr ⟨by omega, by omega⟩
      omega

theorem jsizeM_bound (ms : List (String × Json))
    (h : ∀ m ∈ ms, jsize m.2 ≤ (jsonChars m.2).length + 1) :
    jsizeM ms ≤ (objChars ms).length + 2 := by
  induction ms with
  | nil => simp [jsizeM]
  | cons m ms ih =>
    obtain ⟨k, v⟩ := m
    cases ms with
    | nil =>
      have h1 : jsize v ≤ (jsonChars v).length + 1 := h (k, v) (by simp)
      have e1 : jsizeM [(k, v)] = 1 + jsize v := by simp [jsizeM]
      have e2 : objChars [(k, v)] = '"' :: (escStr k.data ++ ['"', ':'] ++ jsonChars v) := by
        rw [objChars]
      rw [e1, e2]
      simp only [List.length_cons, List.length_append]
      omega
    | cons m2 ms2 =>
      have h1 : jsize v ≤ (jsonChars v).length + 1 := h (k, v) (by simp)
      have h2 : jsizeM (m2 :: ms2) ≤ (objChars (m2 :: ms2)).length + 2 :=
        ih (fun z hz => h z (by simp [hz]))
      have e1 : jsizeM ((k, v) :: m2 :: ms2) = 1 + max (jsize v) (jsizeM (m2 :: ms2)) := by
        rw [jsizeM]
      have e2 : objChars ((k, v) :: m2 :: ms2) =
          ('"' :: (escStr k.data ++ ['"', ':'] ++ jsonChars v)) ++ ',' :: objChars (m2 :: ms2) := by
        rw [objChars]
      rw [e1, e2]
      simp only [List.length_append, List.length_cons]
      have h3 : max (jsize v) (jsizeM (m2 :: ms2)) ≤
          (escStr k.data).length + (jsonChars v).length + (objChars (m2 :: ms2)).length + 3 :=
        Nat.max_le.mpr ⟨by omega, by omega⟩
      omega

theorem jsize_le_aux : ∀ (n : Nat) (v : Json), sizeOf v ≤ n →
    jsize v ≤ (jsonChars v).length + 1 := by
  intro n
  induction n using Nat.strong_induction_on with
  | _ n ih =>
    intro v hv
    cases v with
    | null => simp [jsize, jsonChars]
    | bool b => cases b <;> simp [jsize, jsonChars]
    | num m => simp [jsize, jsonChars]
    | str s => simp [jsize, jsonChars]
    | arr es =>
      have hL : jsizeL es ≤ (arrChars es).length + 2 := by
        apply jsizeL_bound
        intro x hx
        have h1 : sizeOf x < sizeOf es := List.sizeOf_lt_of_mem hx
        have h2 : sizeOf (Json.arr es) = 1 + sizeOf es := by simp
        exact ih (sizeOf x) (by omega) x le_rfl
      simp only [jsize, jsonChars, List.length_cons, List.length_append]
      omega
    | obj ms =>
      have hM : jsizeM ms ≤ (objChars ms).length + 2 := by
        apply jsizeM_bound
        intro m hm
        obtain ⟨k, v2⟩ := m
        have h1 : sizeOf (k, v2) ≤ sizeOf ms := le_of_lt (List.sizeOf_lt_of_mem hm)
        have h2 : sizeOf (Json.obj ms) = 1 + sizeOf ms := by simp
        have h3 : sizeOf v2 < sizeOf (k, v2) := by
          simp only [Prod.mk.sizeOf_spec]
          omega
        exact ih (sizeOf v2) (by omega) v2 le_rfl
      simp only [jsize, jsonChars, List.length_cons, List.length_append]
      omega

theorem jsize_le_len (v : Json) : jsize v ≤ (jsonChars v).length + 1 :=
  jsize_le_aux (sizeOf v) v le_rfl

theorem lbrace_ne : lbrace ≠ 'n' ∧ lbrace ≠ 't' ∧ lbrace ≠ 'f' ∧ lbrace ≠ '"' ∧
    lbrace ≠ '[' := by
  refine ⟨?_, ?_, ?_, ?_, ?_⟩ <;> decide

theorem jsonChars_head (v : Json) :
    ∃ c t, jsonChars v = c :: t ∧ c ≠ ']' ∧ c ≠ rbrace := by
  cases v with
  | null => exact ⟨'n', ['u', 'l', 'l'], by simp [jsonChars], by decide, by decide⟩
  | bool b =>
    cases b
    · exact ⟨'f', ['a', 'l', 's', 'e'], by simp [jsonChars], by decide, by decide⟩
    · exact ⟨'t', ['r', 'u', 'e'], by simp [jsonChars], by decide, by decide⟩
  | num m =>
    by_cases hneg : m < 0
    · exact ⟨'-', natChars m.natAbs, by simp [jsonChars, intChars, hneg], by decide, by decide⟩
    · obtain ⟨c, t, hct⟩ := List.exists_cons_of_ne_nil (natChars_ne_nil m.toNat)
      have hc : isDigitChar c = true := natChars_digits m.toNat c (by rw [hct]; simp)
      have hb := isDigitChar_bounds c hc
      refine ⟨c, t, by simp [jsonChars, intChars, hneg, hct], ?_, ?_⟩ <;>
        (intro e; subst e; exact absurd hb (by decide))
  | str s =>
    exact ⟨'"', escStr s.data ++ ['"'], by simp [jsonChars], by decide, by decide⟩
  | arr es =>
    exact ⟨'[', arrChars es ++ [']'], by simp [jsonChars], by decide, by decide⟩
  | obj ms =>
    exact ⟨lbrace, objChars ms ++ [rbrace], by simp [jsonChars], by decide, by decide⟩

theorem parse_roundtrip (fuel : Nat) :
    (∀ v rest, jsize v ≤ fuel → headNotDigit rest = true →
      parseVal fuel (jsonChars v ++ rest) = some (v, rest)) ∧
    (∀ es rest, es ≠ [] → jsizeL es ≤ fuel →
      parseElems fuel (arrChars es ++ ']' :: rest) = some (es, rest)) ∧
    (∀ ms rest, ms ≠ [] → jsizeM ms ≤ fuel →
      parseMembers fuel (objChars ms ++ rbrace :: rest) = some (ms, rest)) := by
  induction fuel with
  | zero =>
    refine ⟨fun v rest hv _ => absurd hv (by have := jsize_pos v; omega),
            fun es rest hne hes => ?_, fun ms rest hne hms => ?_⟩
    · cases es with
      | nil => exact absurd rfl hne
      | cons x xs => rw [jsizeL] at hes; omega
    · cases ms with
      | nil => exact absurd rfl hne
      | cons m ms2 =>
        obtain ⟨k, v⟩ := m
        rw [jsizeM] at hms; omega
  | succ fuel ih =>
    obtain ⟨ihV, ihE, ihM⟩ := ih
    refine ⟨?_, ?_, ?_⟩
    · intro v rest hv hr
      cases v with
      | null =>
        rw [show jsonChars Json.null = ['n', 'u', 'l', 'l'] from by simp [jsonChars]]
        simp only [List.cons_append, List.nil_append]
        rw [parseVal_succ_cons]
        simp
      | bool b =>
        cases b
        · rw [show jsonChars (Json.bool false) = ['f', 'a', 'l', 's', 'e'] from by
            simp [jsonChars]]
          simp only [List.cons_append, List.nil_append]
          rw [parseVal_succ_cons]
          simp
        · rw [show jsonChars (Json.bool true) = ['t', 'r', 'u', 'e'] from by
            simp [jsonChars]]
          simp only [List.cons_append, List.nil_append]
          rw [parseVal_succ_cons]
          simp
      | num m =>
        rw [show jsonChars (Json.num m) = intChars m from by simp [jsonChars]]
        by_cases hneg : m < 0
        · rw [show intChars m = '-' :: natChars m.natAbs from by simp [intChars, hneg]]
          have hpn := parseNat_natChars m.natAbs rest hr
          have hlb : ('-' : Char) ≠ lbrace := by decide
          rw [List.cons_append, parseVal_succ_cons]
          simp [hpn, hlb]
          rw [abs_of_neg hneg, neg_neg]
        · rw [show intChars m = natChars m.toNat from by simp [intChars, hneg]]
          obtain ⟨c, t, hct⟩ := List.exists_cons_of_ne_nil (natChars_ne_nil m.toNat)
          have hc : isDigitChar c = true := natChars_digits m.toNat c (by rw [hct]; simp)
          obtain ⟨d1, d2, d3, d4, d5, d6, d7⟩ := char_of_digit_ne c hc
          have hpn := parseNat_natChars m.toNat rest hr
          rw [hct] at hpn ⊢
          simp only [List.cons_append] at hpn
          rw [List.cons_append, parseVal_succ_cons]
          simp [d1, d2, d3, d4, d5, d6, d7, hc, hpn]
          omega
      | str s =>
        rw [show jsonChars (Json.str s) = '"' :: (escStr s.data ++ ['"']) from by
          simp [jsonChars]]
        have hstr := parseStr_escStr s.data rest
        rw [List.cons_append, parseVal_succ_cons]
        simp [hstr, string_mk_data]
      | arr es =>
        rw [show jsonChars (Json.arr es) = '[' :: (arrChars es ++ [']']) from by
          simp [jsonChars]]
        cases es with
        | nil =>
          rw [show arrChars ([] : List Json) = [] from by rw [arrChars]]
          rw [List.cons_append, parseVal_succ_cons]
          simp
        | cons x xs =>
          have hfuel : jsizeL (x :: xs) ≤ fuel := by
            rw [show jsize (Json.arr (x :: xs)) = 1 + jsizeL (x :: xs) from by rw [jsize]] at hv
            omega
          obtain ⟨c, t, hct, hc1, hc2⟩ := jsonChars_head x
          have ht2 : ∃ t2, arrChars (x :: xs) = c :: t2 := by
            cases xs with
            | nil =>
              exact ⟨t, by rw [show arrChars [x] = jsonChars x from by rw [arrChars], hct]⟩
            | cons y ys =>
              refine ⟨t ++ ',' :: arrChars (y :: ys), ?_⟩
              rw [show arrChars (x :: y :: ys) = jsonChars x ++ ',' :: arrChars (y :: ys) from by
                rw [arrChars], hct]
              simp
          obtain ⟨t2, ht2⟩ := ht2
          have hE := ihE (x :: xs) rest (by simp) hfuel
          rw [ht2] at hE ⊢
          simp only [List.cons_append] at hE
          rw [List.cons_append, parseVal_succ_cons]
          simp [hc1, hE]
      | obj ms =>
        rw [show jsonChars (Json.obj ms) = lbrace :: (objChars ms ++ [rbrace]) from by
          simp [jsonChars]]
        obtain ⟨b1, b2, b3, b4, b5⟩ := lbrace_ne
        cases ms with
        | nil =>
          rw [show objChars ([] : List (String × Json)) = [] from by rw [objChars]]
          rw [List.cons_append, parseVal_succ_cons]
          simp [b1, b2, b3, b4, b5]
        | cons m ms2 =>
          obtain ⟨k, v⟩ := m
          have hfuel : jsizeM ((k, v) :: ms2) ≤ fuel := by
            rw [show jsize (Json.obj ((k, v) :: ms2)) = 1 + jsizeM ((k, v) :: ms2) from by
              rw [jsize]] at hv
            omega
          have hq : ('"' : Char) ≠ rbrace := by decide
          have ht2 : ∃ t2, objChars ((k, v) :: ms2) = '"' :: t2 := by
            cases ms2 with
            | nil =>
              exact ⟨escStr k.data ++ ['"', ':'] ++ jsonChars v, by rw [objChars]⟩
            | cons m2 ms3 =>
              refine ⟨(escStr k.data ++ ['"', ':'] ++ jsonChars v) ++ ',' :: objChars (m2 :: ms3), ?_⟩
              rw [show objChars ((k, v) :: m2 :: ms3) =
                ('"' :: (escStr k.data ++ ['"', ':'] ++ jsonChars v)) ++ ',' :: objChars (m2 :: ms3) from by
                rw [objChars]]
              simp
          obtain ⟨t2, ht2⟩ := ht2
          have hM := ihM ((k, v) :: ms2) rest (by simp) hfuel
          rw [ht2] at hM ⊢
          simp only [List.cons_append] at hM
          rw [List.cons_append, parseVal_succ_cons]
          simp [b1, b2, b3, b4, b5, hq, hM]
    · intro es rest hne hes
      cases es with
      | nil => exact absurd rfl hne
      | cons x xs =>
        have hx : jsize x ≤ fuel := by
          rw [jsizeL] at hes
          have := Nat.le_max_left (jsize x) (jsizeL xs)
          omega
        cases xs with
        | nil =>
          rw [show arrChars [x] = jsonChars x from by rw [arrChars]]
          have hV := ihV x (']' :: rest) hx rfl
          rw [parseElems_succ, hV]
          simp
        | cons y ys =>
          have hys : jsizeL (y :: ys) ≤ fuel := by
            rw [jsizeL] at hes
            have := Nat.le_max_right (jsize x) (jsizeL (y :: ys))
            omega
          have hE := ihE (y :: ys) rest (by simp) hys
          rw [show arrChars (x :: y :: ys) = jsonChars x ++ ',' :: arrChars (y :: ys) from by
            rw [arrChars]]
          rw [List.append_assoc]
          rw [show (',' :: arrChars (y :: ys)) ++ ']' :: rest =
            ',' :: (arrChars (y :: ys) ++ ']' :: rest) from rfl]
          have hV := ihV x (',' :: (arrChars (y :: ys) ++ ']' :: rest)) hx rfl
          rw [parseElems_succ, hV]
          simp [hE]
    · intro ms rest hne hms
      cases ms with
      | nil => exact absurd rfl hne
      | cons m ms2 =>
        obtain ⟨k, v⟩ := m
        have hv' : jsize v ≤ fuel := by
          rw [jsizeM] at hms
          have := Nat.le_max_left (jsize v) (jsizeM ms2)
          omega
        have hrb : rbrace ≠ ',' := by decide
        cases ms2 with
        | nil =>
          rw [show objChars [(k, v)] = '"' :: (escStr k.data ++ ['"', ':'] ++ jsonChars v) from by
            rw [objChars]]
          have hstr := parseStr_escStr k.data (':' :: (jsonChars v ++ rbrace :: rest))
          have hV := ihV v (rbrace :: rest) hv' rfl
          rw [List.cons_append, parseMembers_succ]
          simp [hstr, hV, string_mk_data, hrb]
        | cons m2 ms3 =>
          have hms3 : jsizeM (m2 :: ms3) ≤ fuel := by
            rw [jsizeM] at hms
            have := Nat.le_max_right (jsize v) (jsizeM (m2 :: ms3))
            omega
          have hM := ihM (m2 :: ms3) rest (by simp) hms3
          rw [show objChars ((k, v) :: m2 :: ms3) =
            ('"' :: (escStr k.data ++ ['"', ':'] ++ jsonChars v)) ++ ',' :: objChars (m2 :: ms3) from by
            rw [objChars]]
          have hstr := parseStr_escStr k.data
            (':' :: (jsonChars v ++ ',' :: (objChars (m2 :: ms3) ++ rbrace :: rest)))
          have hV := ihV v (',' :: (objChars (m2 :: ms3) ++ rbrace :: rest)) hv' rfl
          rw [List.cons_append, List.append_assoc, parseMembers_succ]
          simp [hstr, hV, hM, string_mk_data]

theorem jsonParse_stringify (v : Json) : jsonParse (jsonStringify v) = some v := by
  have h := (parse_roundtrip ((jsonChars v).length + 1)).1 v []
    (le_trans (jsize_le_len v) (by omega)) rfl
  rw [List.append_nil] at h
  show (match parseVal ((jsonChars v).length + 1) (jsonChars v) with
        | some (w, []) => some w
        | _ => none) = some v
  rw [h]

/-! ## Placeholder translation and the adapter operations -/

theorem pgTranslate_no_qmark (s : List Char) (k : Nat) (rest : List Char)
    (h : '?' ∉ s) :
    pgTranslateChars k (s ++ rest) = s ++ pgTranslateChars k rest := by
  induction s with
  | nil => simp
  | cons c cs ih =>
    have hc : c ≠ '?' := by
      intro e; subst e; exact h (by simp)
    have ih' := ih (fun hx => h (List.mem_cons_of_mem _ hx))
    simp [pgTranslateChars, hc, ih']

theorem pgTranslate_dollarJoin : ∀ (k : Nat) (segs : List (List Char)),
    (∀ s ∈ segs, '?' ∉ s) →
    pgTranslateChars k (qmarkJoin segs) = dollarJoin k segs := by
  intro k segs
  induction segs generalizing k with
  | nil => intro _; rfl
  | cons s rest ih =>
    intro h
    cases rest with
    | nil =>
      have h1 := pgTranslate_no_qmark s k [] (h s (by simp))
      rw [show qmarkJoin [s] = s from rfl, show dollarJoin k [s] = s from rfl,
        show s = s ++ ([] : List Char) from by simp, h1]
      simp [pgTranslateChars]
    | cons s2 t =>
      have h1 := pgTranslate_no_qmark s k ('?' :: qmarkJoin (s2 :: t)) (h s (by simp))
      rw [show qmarkJoin (s :: s2 :: t) = s ++ '?' :: qmarkJoin (s2 :: t) from rfl, h1,
        show pgTranslateChars k ('?' :: qmarkJoin (s2 :: t)) =
          ('$' :: natChars k) ++ pgTranslateChars (k + 1) (qmarkJoin (s2 :: t)) from by
          simp [pgTranslateChars],
        ih (k + 1) (fun z hz => h z (by simp [hz]))]
      simp [dollarJoin]

theorem qmarkJoin_count (segs : List (List Char)) (h : ∀ s ∈ segs, '?' ∉ s) :
    (qmarkJoin segs).count '?' = segs.length - 1 := by
  induction segs with
  | nil => rfl
  | cons s rest ih =>
    cases rest with
    | nil =>
      rw [show qmarkJoin [s] = s from rfl]
      simp [List.count_eq_zero.mpr (h s (by simp))]
    | cons s2 t =>
      rw [show qmarkJoin (s :: s2 :: t) = s ++ '?' :: qmarkJoin (s2 :: t) from rfl]
      rw [List.count_append, List.count_cons]
      rw [List.count_eq_zero.mpr (h s (by simp)), ih (fun z hz => h z (by simp [hz]))]
      simp [List.length_cons]

/-! ## Claim theorems: the persistence adapter -/

/-- C2: the Persistence Adapter's placeholder translation is
order-stable.  For every query text assembled from `?`-free segments
(hence with `segs.length - 1` positional placeholders, covering N = 0,
1 and greater) and a parameter list of that length, the translation
rewrites the i-th `?` occurrence, counted left to right, to `$i`
(`dollarJoin`), and the Postgres binding of `$i` is the parameter the
SQLite backend binds to the i-th `?`.  `get`, `all` and `run` all use
this one translation (`pgTranslateChars` in `dbGetPg` / `dbAllPg` /
`pgRunInsert`). -/
theorem c2_placeholder_translation_order_stable {α : Type} (segs : List (List Char))
    (params : List α) (hq : ∀ s ∈ segs, '?' ∉ s)
    (hlen : params.length = segs.length - 1) :
    pgTranslateChars 1 (qmarkJoin segs) = dollarJoin 1 segs ∧
    (qmarkJoin segs).count '?' = segs.length - 1 ∧
    (∀ i, i < params.length → pgBindParam params (i + 1) = sqliteBindParam params i) :=
  ⟨pgTranslate_dollarJoin 1 segs hq, qmarkJoin_count segs hq,
   fun i _ => by simp [pgBindParam, sqliteBindParam]⟩

/-- Witness for C2 at the server's DELETE statement, which has two
placeholders, with a two-element parameter list. -/
theorem c2_witness :
    pgTranslateChars 1 (qmarkJoin
      ["DELETE FROM cv_history WHERE id = ".data, " AND user_id = ".data, "".data]) =
      dollarJoin 1
        ["DELETE FROM cv_history WHERE id = ".data, " AND user_id = ".data, "".data] ∧
    (qmarkJoin
      ["DELETE FROM cv_history WHERE id = ".data, " AND user_id = ".data, "".data]).count '?' =
      (["DELETE FROM cv_history WHERE id = ".data, " AND user_id = ".data, "".data]).length - 1 ∧
    (∀ i, i < ([5, 7] : List Nat).length →
      pgBindParam ([5, 7] : List Nat) (i + 1) = sqliteBindParam ([5, 7] : List Nat) i) :=
  c2_placeholder_translation_order_stable
    ["DELETE FROM cv_history WHERE id = ".data, " AND user_id = ".data, "".data]
    ([5, 7] : List Nat) (by decide) (by decide)

/-- C3: on every insert statement — one whose translated text, trimmed
and upper-cased, starts with INSERT, which is exactly the condition the
Postgres branch of `db.run` tests before appending " RETURNING id" —
the Postgres branch returns the newly generated identity in the same
`lastInsertRowid` result shape and produces the same table state as the
SQLite branch: the two backend implementations of `run` are
observationally equivalent on inserts. -/
theorem c3_run_insert_equivalent {α : Type} (sqlText : List Char) (t : SqlTable α) (v : α)
    (hIns : startsWithChars "INSERT".data
      (toUpperChars (trimChars (pgTranslateChars 1 sqlText))) = true) :
    pgRunInsert sqlText t v = sqliteRunInsert t v := by
  unfold pgRunInsert sqliteRunInsert
  simp [hIns]

/-- Witness for C3 at the server's users insert statement on a concrete
table. -/
theorem c3_witness :
    pgRunInsert "INSERT INTO users (email, password, name) VALUES (?, ?, ?)".data
      (⟨4, [(1, [some "x"])]⟩ : SqlTable (List (Option String)))
      [some "a@b.c", some "h", some "A"] =
    sqliteRunInsert (⟨4, [(1, [some "x"])]⟩ : SqlTable (List (Option String)))
      [some "a@b.c", some "h", some "A"] :=
  c3_run_insert_equivalent
    "INSERT INTO users (email, password, name) VALUES (?, ?, ?)".data
    (⟨4, [(1, [some "x"])]⟩ : SqlTable (List (Option String)))
    [some "a@b.c", some "h", some "A"] (by decide)

/-- C9: on both backends `get` returns the first row the query
produced, and the well-defined absent value (`none`, the undefined of
the JS API) rather than an error when zero rows match; `all` returns
the row list itself, the empty sequence rather than an error when no
rows match. -/
theorem c9_get_all_zero_rows {α : Type} (rows : List α) :
    dbGetSqlite rows = rows.head? ∧
    dbGetPg ⟨rows⟩ = rows.head? ∧
    (rows = [] → dbGetSqlite rows = none ∧ dbGetPg ⟨rows⟩ = none) ∧
    dbAllSqlite rows = rows ∧
    dbAllPg ⟨rows⟩ = rows ∧
    (rows = [] → dbAllSqlite rows = [] ∧ dbAllPg ⟨rows⟩ = []) := by
  refine ⟨rfl, ?_, ?_, rfl, rfl, ?_⟩
  · cases rows <;> rfl
  · rintro rfl; exact ⟨rfl, rfl⟩
  · rintro rfl; exact ⟨rfl, rfl⟩

/-! ## Claim theorems: the account and history services -/

/-- C1: for every account, GET /api/history answers 200 with a list in
which every record's `user_id` is the authenticated account — no record
of another account appears, whatever is stored — and the list is
ordered by creation time, newest first. -/
theorem c1_history_list_owner_scoped_newest_first (db : Db) (uid : Nat) :
    ∃ l, listHistory db (some uid) = .status200 l ∧
      (∀ r ∈ l, r.user_id = uid) ∧
      l.Pairwise (fun a b => b.created_at ≤ a.created_at) := by
  refine ⟨_, rfl, ?_, ?_⟩
  · intro r hr
    obtain ⟨h, hmem, rfl⟩ := List.mem_map.mp hr
    have hperm := List.perm_insertionSort createdDesc
      (db.hist.filter (fun h => h.user_id == uid))
    have hfil : h ∈ db.hist.filter (fun h => h.user_id == uid) :=
      hperm.mem_iff.mp hmem
    have h2 := (List.mem_filter.mp hfil).2
    simp only [beq_iff_eq] at h2
    simpa [histOutOfRow] using h2
  · have hs : (sortNewestFirst (db.hist.filter (fun h => h.user_id == uid))).Sorted
        createdDesc := List.sorted_insertionSort createdDesc _
    exact List.pairwise_map.mpr (hs.imp (fun h => h))

/-- C4: round-trip — a POST /api/history/save followed immediately by
GET /api/history on the same account returns a record whose `cv_text`,
`job_description` and parsed `analysis` equal exactly what was passed
to the save (the analysis surviving `JSON.stringify` to storage and
`JSON.parse` on retrieval). -/
theorem c4_append_list_roundtrip (db : Db) (uid : Nat) (cv jd : String) (a : Json) :
    ∃ l, listHistory (appendHistory db (some uid) cv jd a).1 (some uid) = .status200 l ∧
      ∃ r ∈ l, r.cv_text = cv ∧ r.job_description = jd ∧ r.analysis = some a := by
  refine ⟨_, rfl, ?_⟩
  refine ⟨histOutOfRow
    { id := db.nextHistId, user_id := uid, cv_text := cv, job_description := jd,
      analysis_json := jsonStringify a, created_at := db.now }, ?_, rfl, rfl, ?_⟩
  · apply List.mem_map_of_mem
    have hperm := List.perm_insertionSort createdDesc
      (((appendHistory db (some uid) cv jd a).1).hist.filter (fun h => h.user_id == uid))
    apply hperm.mem_iff.mpr
    apply List.mem_filter.mpr
    refine ⟨?_, by simp⟩
    show _ ∈ db.hist ++ [_]
    simp
  · show jsonParse (jsonStringify a) = some a
    exact jsonParse_stringify a

/-- C5: DELETE /api/history/:id deletes a record only when it is owned
by the session account; records of other accounts (and all user rows)
are untouched; nothing is ever added; when no record matches both the
id and the owner, the store is completely unchanged; and the response
is the same success body in every case, so "deleted", "not found" and
"not yours" are indistinguishable to the caller. -/
theorem c5_delete_owner_scoped_idempotent (db : Db) (uid recId : Nat) :
    (deleteHistory db (some uid) recId).2 = .status200 successBody ∧
    (deleteHistory db (some uid) recId).1.users = db.users ∧
    (∀ h ∈ (deleteHistory db (some uid) recId).1.hist, h ∈ db.hist) ∧
    (∀ h ∈ db.hist, h.user_id ≠ uid → h ∈ (deleteHistory db (some uid) recId).1.hist) ∧
    (∀ h ∈ db.hist, h ∉ (deleteHistory db (some uid) recId).1.hist →
      h.id = recId ∧ h.user_id = uid) ∧
    ((∀ h ∈ db.hist, ¬(h.id = recId ∧ h.user_id = uid)) →
      (deleteHistory db (some uid) recId).1 = db) := by
  refine ⟨rfl, rfl, ?_, ?_, ?_, ?_⟩
  · intro h hh
    exact (List.mem_filter.mp hh).1
  · intro h hh hne
    apply List.mem_filter.mpr
    refine ⟨hh, ?_⟩
    simp [hne]
  · intro h hh hnot
    have hp : (h.id == recId && h.user_id == uid) = true := by
      cases hcase : (h.id == recId && h.user_id == uid) with
      | true => rfl
      | false => exact absurd (List.mem_filter.mpr ⟨hh, by simp [hcase]⟩) hnot
    simpa using hp
  · intro hnone
    show { db with hist := _ } = db
    have : db.hist.filter (fun h => !(h.id == recId && h.user_id == uid)) = db.hist := by
      apply List.filter_eq_self.mpr
      intro h hh
      have := hnone h hh
      simp only [Bool.not_eq_true']
      by_contra hb
      simp at hb
      exact this ⟨hb.1, hb.2⟩
    rw [this]

/-- C6: the password hash is never returned.  Every 200 body of
register (the re-selected id / email / name row), login (the
rest-destructured row) and me (the six selected columns) has no
"password" field, for every store and request. -/
theorem c6_password_never_returned (db : Db) (email password nm : Option String)
    (pw : String) (uid : Nat) :
    (∀ body, (register db email password nm).2 = .status200 body →
      "password" ∉ body.map Prod.fst) ∧
    (∀ body, login db email pw = .status200 body → "password" ∉ body.map Prod.fst) ∧
    (∀ body, currentAccount db (some uid) = .status200 body →
      "password" ∉ body.map Prod.fst) := by
  refine ⟨?_, ?_, ?_⟩
  · intro body h
    cases password with
    | none => simp [register] at h
    | some pw' =>
      by_cases ht : emailTaken db email
      · simp [register, ht] at h
      · simp [register, ht] at h
        rw [← h]
        simp [registerBody]
  · intro body h
    unfold login at h
    split at h
    · split at h
      · simp only [HttpResp.status200.injEq] at h
        rw [← h]
        simp [loginBody]
      · simp at h
    · simp at h
  · intro body h
    cases hf : db.users.find? (fun u => u.id == uid) with
    | none =>
      simp [currentAccount, hf] at h
      subst h
      simp
    | some u =>
      simp [currentAccount, hf] at h
      subst h
      simp [meBody]

/-- Counterexample to C7 as stated: registering with empty-string email
and password on an empty store is not rejected — it answers 200 and
creates an account row, where the claim requires a 400 with no row
created. -/
theorem c7_counterexample :
    (register { users := [], nextUserId := 1, hist := [], nextHistId := 1, now := 0 }
      (some "") (some "") (some "Alice")).2 =
      .status200 [("id", .jnum 1), ("email", .jstr ""), ("name", .jstr "Alice")] ∧
    (register { users := [], nextUserId := 1, hist := [], nextHistId := 1, now := 0 }
      (some "") (some "") (some "Alice")).1.users.length = 1 := by
  constructor <;> rfl

/-- C7 (amended): registration fails with 400 — leaving the store
unchanged, so no account row is created — whenever the supplied email is
already present in the users table, hence always on a second
registration with an email that a first registration stored, regardless
of the second password or name; a missing password is likewise a 400
no-op.  (The empty-input part of the original claim does not hold: the
handler performs no minimal validation, see the counterexample.) -/
theorem c7_duplicate_email_conflict (db : Db) (e : String) (p nm : Option String) :
    (emailTaken db (some e) = true →
      register db (some e) p nm = (db, .status400 "User already exists or invalid data")) ∧
    (∀ p1 n1 db1 body p2 n2, register db (some e) (some p1) n1 = (db1, .status200 body) →
      register db1 (some e) p2 n2 = (db1, .status400 "User already exists or invalid data")) ∧
    (register db (some e) none nm = (db, .status400 "User already exists or invalid data")) := by
  refine ⟨?_, ?_, ?_⟩
  · intro ht
    cases p with
    | none => rfl
    | some pw => simp [register, ht]
  · intro p1 n1 db1 body p2 n2 hfirst
    by_cases ht : emailTaken db (some e)
    · simp [register, ht] at hfirst
    · simp only [register, ht, if_false] at hfirst
      obtain ⟨hdb1, -⟩ := Prod.mk.injEq .. ▸ hfirst
      have htaken : emailTaken db1 (some e) = true := by
        rw [← hdb1]
        simp [emailTaken]
      cases p2 with
      | none => rfl
      | some pw2 => simp [register, htaken]
  · rfl

/-- Counterexample to C8 as stated: on a store holding one account with
bio "my bio" and theme "dark", an update request carrying only a name
(bio and theme unspecified, i.e. null) does not retain the prior bio
and theme — the stored bio becomes NULL and the theme becomes "light". -/
theorem c8_counterexample :
    ((updateProfile
      ({ users := [{ id := 1
                     email := some "a@b.c"
                     password := some "h"
                     name := some "N"
                     avatar := none
                     bio := some "my bio"
                     theme := some "dark"
                     created_at := 0 }]
         nextUserId := 2
         hist := []
         nextHistId := 1
         now := 5 } : Db)
      (some 1) (some "X") none none).1.users.map (fun u => (u.bio, u.theme))) =
      [(none, some "light")] := by
  rfl

/-- C8 (amended): POST /api/profile/update always overwrites exactly
the three columns of its UPDATE statement — name and bio receive the
request values (NULL when unspecified) and theme receives the request
value or "light" when it is falsy — while every other column (id,
email, password, avatar, created_at), every other user's row, and the
history table keep their prior values; the response is success. -/
theorem c8_update_overwrites_name_bio_theme (db : Db) (uid : Nat)
    (nm bio theme : Option String) :
    (updateProfile db (some uid) nm bio theme).2 = .status200 successBody ∧
    (∀ u' ∈ (updateProfile db (some uid) nm bio theme).1.users,
      ∃ u ∈ db.users, u'.id = u.id ∧ u'.email = u.email ∧ u'.password = u.password ∧
        u'.avatar = u.avatar ∧ u'.created_at = u.created_at ∧
        (u.id ≠ uid → u' = u) ∧
        (u.id = uid → u'.name = nm ∧ u'.bio = bio ∧
          u'.theme = some (themeOrLight theme))) ∧
    (updateProfile db (some uid) nm bio theme).1.hist = db.hist := by
  refine ⟨rfl, ?_, rfl⟩
  intro u' hu'
  obtain ⟨u, hu, rfl⟩ := List.mem_map.mp hu'
  refine ⟨u, hu, ?_⟩
  by_cases he : u.id = uid
  · simp [he]
  · have hb : (u.id == uid) = false := by simp [he]
    simp [hb, he]

/-- C10 (implicit): whenever the request body's theme is absent or null
(`none`) or the empty string, the profile update stores theme "light"
for the session account's row — whatever theme (for example "dark") was
stored before. -/
theorem c10_falsy_theme_stored_light (db : Db) (uid : Nat) (nm bio : Option String) :
    (∀ u' ∈ (updateProfile db (some uid) nm bio none).1.users,
      u'.id = uid → u'.theme = some "light") ∧
    (∀ u' ∈ (updateProfile db (some uid) nm bio (some "")).1.users,
      u'.id = uid → u'.theme = some "light") := by
  constructor <;>
  · intro u' hu' hid
    obtain ⟨u, hu, rfl⟩ := List.mem_map.mp hu'
    by_cases he : u.id = uid
    · simp [he, themeOrLight]
    · have hb : (u.id == uid) = false := by simp [he]
      simp only [hb, if_false] at hid ⊢
      exact absurd hid he
